import Mathlib

/-!
Verification of the qs-state-hook library (source files `src/index.ts` and
`src/mini-history.ts`, with the earlier plain-JS variant `src/index.js` kept
in the repository as well).

The library keeps per-key React state in sync with the URL query string:
a scope constructor (`useQsStateCreator`) owns a module-level commit queue
and a debounced committer; each per-key binding (`useQsState`) reads,
validates and hydrates its key from the query string, optimistically updates
local state on `setValue`, and enqueues the dehydrated value into the shared
queue, which the committer flushes into a single merged location update.

The embedding models JS runtime values as an inductive type `JVal`
(reference identity of objects, arrays and functions is carried as a numeric
tag so that strict equality `===` can be expressed), JS objects as ordered
association lists, and the query-string codec (the external `qs` package,
specified in the spec only at its interface) as ordered pair lists.
Percent-escaping is elided: it is the identity on every character occurring
in the concrete scenarios below.
-/

set_option autoImplicit false

namespace QsState

/-- A JS runtime value. Objects, arrays and functions carry a numeric
reference tag so that strict equality (`===`, reference equality for those)
is expressible; numbers are restricted to integers, which is faithful for
every value the library's tests and spec scenarios use. -/
inductive JVal : Type where
  | vundef : JVal
  | vnull : JVal
  | vbool : Bool → JVal
  | vnum : Int → JVal
  | vstr : String → JVal
  | varr : Nat → List JVal → JVal
  | vobj : Nat → List (String × JVal) → JVal
  | vfunc : Nat → JVal

/-- JS strict equality `===`: primitives by value, objects / arrays /
functions by reference (the numeric tag). -/
def jsEq : JVal → JVal → Bool
  | .vundef, .vundef => true
  | .vnull, .vnull => true
  | .vbool a, .vbool b => a == b
  | .vnum a, .vnum b => a == b
  | .vstr a, .vstr b => a == b
  | .varr i _, .varr j _ => i == j
  | .vobj i _, .vobj j _ => i == j
  | .vfunc i, .vfunc j => i == j
  | _, _ => false

/-- JS truthiness (`!!v`). -/
def truthy : JVal → Bool
  | .vundef => false
  | .vnull => false
  | .vbool b => b
  | .vnum n => n != 0
  | .vstr s => s != ""
  | .varr _ _ => true
  | .vobj _ _ => true
  | .vfunc _ => true

/-- Whether a value is the JS `null`. -/
def JVal.isNull : JVal → Bool
  | .vnull => true
  | _ => false

/-- Escaping of one character inside a JSON string literal. -/
def jsonEscapeChar (c : Char) : String :=
  if c = '\x22' then "\\\x22" else if c = '\\' then "\\\\" else String.singleton c

/-- Escaping of a string for a JSON string literal. -/
def jsonEscape (s : String) : String :=
  String.join (s.toList.map jsonEscapeChar)

mutual

/-- Model of `JSON.stringify`: `none` models the JS `undefined` result (for
`undefined` itself and for functions). Object fields whose value serializes
to `undefined` are skipped; array elements that do are rendered as `null`. -/
def jsonStringify : JVal → Option String
  | .vundef => none
  | .vfunc _ => none
  | .vnull => some "null"
  | .vbool b => some (if b then "true" else "false")
  | .vnum n => some (toString n)
  | .vstr s => some ("\x22" ++ jsonEscape s ++ "\x22")
  | .varr _ es => some ("[" ++ String.intercalate "," (jsonArrayItems es) ++ "]")
  | .vobj _ fs => some ("\x7b" ++ String.intercalate "," (jsonObjectItems fs) ++ "\x7d")

/-- Serialized items of a JSON array. -/
def jsonArrayItems : List JVal → List String
  | [] => []
  | e :: es => (jsonStringify e).getD "null" :: jsonArrayItems es

/-- Serialized `key:value` members of a JSON object, skipping fields whose
value serializes to `undefined`. -/
def jsonObjectItems : List (String × JVal) → List String
  | [] => []
  | (k, v) :: fs =>
    match jsonStringify v with
    | some sv => ("\x22" ++ jsonEscape k ++ "\x22:" ++ sv) :: jsonObjectItems fs
    | none => jsonObjectItems fs

end

/-- The function `isEqualObj` from `src/index.ts`: strict equality first, then comparison
of the `JSON.stringify` results (two `undefined` results compare equal). -/
def isEqualObj (a b : JVal) : Bool :=
  if jsEq a b then true
  else jsonStringify a == jsonStringify b

/-! ### The query-string codec

The `qs` package is an external collaborator; the spec fixes it only at its
interface (decode into an ordered key-to-value mapping, dropping a leading
query delimiter; encode with `skipNulls`, joining `key=value` pairs with
`&`).  Modelled from the spec: `qsParse` and `qsStringify` below follow that
interface description; percent-escaping is elided (identity on the
characters used in this development), and nested objects / arrays are
encoded with the bracketed key scheme `qs` uses. -/

/-- Splitting of a character list at every occurrence of the separator
(structural-recursion counterpart of string splitting). -/
def splitOnChar (c : Char) : List Char → List (List Char)
  | [] => [[]]
  | x :: xs =>
    match splitOnChar c xs with
    | [] => [[x]]
    | grp :: rest => if x = c then [] :: grp :: rest else (x :: grp) :: rest

/-- One `key=value` segment of a query string (the part before the first
`=` is the key; a segment with no `=` maps to the empty string). -/
def parseSeg (seg : List Char) : String × String :=
  match splitOnChar '=' seg with
  | [] => (String.mk seg, "")
  | [k] => (String.mk k, "")
  | k :: rest => (String.mk k, String.intercalate "=" (rest.map String.mk))

/-- Modelled from the spec: decode of an encoded location into an ordered
key-to-value mapping, ignoring a leading query delimiter. -/
def qsParse (s : String) : List (String × String) :=
  let cs := match s.toList with
    | '?' :: rest => rest
    | l => l
  ((splitOnChar '&' cs).filter (fun seg => seg ≠ [])).map parseSeg

/-- First-match lookup in an ordered string mapping (JS property read). -/
def lookupStr : List (String × String) → String → Option String
  | [], _ => none
  | e :: l, k => if e.1 == k then some e.2 else lookupStr l k

/-- A JS object holding `JVal` values, as an ordered association list. -/
abbrev Obj := List (String × JVal)

/-- First-match lookup in a JS object (property read). -/
def lookupObj : Obj → String → Option JVal
  | [], _ => none
  | e :: o, k => if e.1 == k then some e.2 else lookupObj o k

/-- Whether a JS object has the key. -/
def hasKey : Obj → String → Bool
  | [], _ => false
  | e :: o, k => e.1 == k || hasKey o k

/-- Replacement of the value of every entry with the given key. -/
def replaceKey : Obj → String → JVal → Obj
  | [], _, _ => []
  | e :: o, k, v => (if e.1 == k then (k, v) else e) :: replaceKey o k v

/-- JS object update `\x7b ...o, [k]: v \x7d` restricted to the one new
entry: an existing key keeps its position and gets the new value, a new key
is appended. -/
def objInsert (o : Obj) (k : String) (v : JVal) : Obj :=
  if hasKey o k then replaceKey o k v
  else o ++ [(k, v)]

/-- JS object spread `\x7b ...o, ...q \x7d`: entries of `q` override
same-key entries of `o` in place; keys only in `q` are appended in their
order. -/
def objSpread (o : Obj) (q : Obj) : Obj :=
  q.foldl (fun acc e => objInsert acc e.1 e.2) o

mutual

/-- Modelled from the spec: the `key=value` output pairs `qs.stringify`
(with `skipNulls: true`) produces for one entry. `null`, `undefined` and
function values produce nothing; composite values recurse with bracketed
keys. -/
def qsPairs (k : String) : JVal → List String
  | .vundef => []
  | .vnull => []
  | .vfunc _ => []
  | .vbool b => [k ++ "=" ++ (if b then "true" else "false")]
  | .vnum n => [k ++ "=" ++ toString n]
  | .vstr s => [k ++ "=" ++ s]
  | .varr _ es => qsPairsItems k 0 es
  | .vobj _ fs => qsPairsFields k fs

/-- Output pairs for the elements of an array value. -/
def qsPairsItems (k : String) (i : Nat) : List JVal → List String
  | [] => []
  | e :: es => qsPairs (k ++ "[" ++ toString i ++ "]") e ++ qsPairsItems k (i + 1) es

/-- Output pairs for the fields of an object value. -/
def qsPairsFields (k : String) : List (String × JVal) → List String
  | [] => []
  | (fk, fv) :: fs => qsPairs (k ++ "[" ++ fk ++ "]") fv ++ qsPairsFields k fs

end

/-- All output pairs of a JS object under `qs.stringify`. -/
def objPairs (o : Obj) : List String :=
  (o.map (fun e => qsPairs e.1 e.2)).flatten

/-- Modelled from the spec: `qs.stringify(o, \x7b skipNulls: true \x7d)`. -/
def qsStringify (o : Obj) : String :=
  String.intercalate "&" (objPairs o)

/-! ### State definitions and the per-key binding (src/index.ts) -/

/-- The shape of the optional `validator` of a state definition: an array of
acceptable options or a predicate function (`src/index.ts`,
`QsStateDefinition.validator`). -/
inductive ValidatorSpec : Type where
  | arr (opts : List JVal)
  | func (p : JVal → Bool)

/-- A state definition (`QsStateDefinition` in `src/index.ts`). `hydrator`
and `dehydrator` default to the identity function (`identityFn` in the
source); at runtime both receive and may return any JS value, so they are
functions on `JVal`. -/
structure QsStateDefinition : Type where
  key : String
  default : JVal
  hydrator : JVal → JVal := fun v => v
  dehydrator : JVal → JVal := fun v => v
  validator : Option ValidatorSpec := none

/-- The validator dispatch of `useQsState` (`src/index.ts`): an array
validator tests membership with `indexOf` (strict equality), a function
validator is applied, and with no validator any truthy value is valid. -/
def applyValidator (d : QsStateDefinition) (v : JVal) : Bool :=
  match d.validator with
  | some (.arr opts) => opts.any (fun o => jsEq o v)
  | some (.func p) => p v
  | none => truthy v

/-- The function `getValueFromURL` of `src/index.ts`: parse the search string, read the
raw entry for the definition's key (`undefined` when absent), hydrate it,
and return the hydrated candidate when it validates, the definition's
default otherwise. -/
def getValueFromURL (d : QsStateDefinition) (searchString : String) : JVal :=
  let parsedQS := qsParse searchString
  let value := d.hydrator (match lookupStr parsedQS d.key with
    | some s => .vstr s
    | none => .vundef)
  if applyValidator d value then value else d.default

/-- The pure content of `setValue` (`src/index.ts`): validate the new value
(substituting the default when invalid), dehydrate it, and pair the new
local state value with the value handed to `storeInURL` — the dehydrated
value, or `null` when it is strictly equal to the dehydrated default. -/
def setValueCompute (d : QsStateDefinition) (value : JVal) : JVal × JVal :=
  let v := if applyValidator d value then value else d.default
  let dehydratedVal := d.dehydrator v
  let dehydratedDefaultVal := d.dehydrator d.default
  (v, if jsEq dehydratedVal dehydratedDefaultVal then .vnull else dehydratedVal)

/-- The function `storeInURL` of `src/index.ts`: merge the one entry into the shared
commit queue (the debounce-timer refresh it also performs is temporal and
modelled by the flush being a separate step). -/
def storeInURL (q : Obj) (k : String) (v : JVal) : Obj :=
  objInsert q k v

/-- An encoded location as the navigation committer receives it
(`QsLocation` in `src/mini-history.ts`). -/
structure QsLocation : Type where
  search : String

/-- The merged object the debounced `commit` of `src/index.ts` builds:
the parse of the current location's search string spread together with the
commit queue (`\x7b ...parsedQS, ...commitQueue \x7d`). -/
def commitQsObject (locSearch : String) (q : Obj) : Obj :=
  objSpread ((qsParse locSearch).map (fun e => (e.1, JVal.vstr e.2))) q

/-- One run of the debounced `commit` body (`src/index.ts`): the list of
invocations of the external `commitToLocation` it performs (a single one,
with the re-encoded merged mapping) together with the cleared queue. -/
def commitFlush (locSearch : String) (q : Obj) : List QsLocation × Obj :=
  ([⟨qsStringify (commitQsObject locSearch q)⟩], [])

/-- The binding-local state of one `useQsState` call: the `mounted` ref and
the current `valueState`. -/
structure BindingState : Type where
  mounted : Bool
  value : JVal

/-- Binding initialization (`useState(getValueFromURL(locSearch))` plus the
`mounted` ref starting `false`): the initial value is seeded directly from
the current location; the commit queue is not consulted (this function does
not even receive it). -/
def initBinding (d : QsStateDefinition) (locSearch : String) : BindingState :=
  ⟨false, getValueFromURL d locSearch⟩

/-- One call of `setValue` (`src/index.ts`) acting on the binding state and
the shared queue: the local state is set to the validated value in the same
step, and the dehydrated value (or `null`) is enqueued under the
definition's key. -/
def setValueRun (d : QsStateDefinition) (value : JVal) (s : BindingState) (q : Obj) :
    BindingState × Obj :=
  let r := setValueCompute d value
  (⟨s.mounted, r.1⟩, storeInURL q d.key r.2)

/-- One run of the reconciliation `useEffect` of `useQsState`
(`src/index.ts`): on the first run it only flips the `mounted` ref;
afterwards it recomputes the value from the location and replaces local
state only when the commit queue is empty and the recomputed value differs
from the current one under `isEqualObj`. -/
def reconcileEffect (d : QsStateDefinition) (locSearch : String) (q : Obj)
    (s : BindingState) : BindingState :=
  if !s.mounted then ⟨true, s.value⟩
  else
    let v := getValueFromURL d locSearch
    let hasPendingCommits := q.length
    if hasPendingCommits == 0 && !isEqualObj v s.value then ⟨s.mounted, v⟩ else s

/-! ### Scopes

A scope is one call of `useQsStateCreator`; it owns a location and a commit
callback, but the commit queue is a single module-level binding of
`src/index.ts` shared by every scope in the process, so the scope is not a
parameter of the queue state at all. -/

/-- The per-scope data of one `useQsStateCreator` call: the location it
reads. (The commit callback only names where a flush is delivered and does
not influence the queue.) -/
structure Scope : Type where
  locSearch : String

/-- An enqueue performed through a binding of the given scope. It acts on
the single module-level queue: the scope argument is irrelevant, exactly as
in the source, where `commitQueue` is a module-level `let`. -/
def scopeEnqueue (sc : Scope) (q : Obj) (k : String) (v : JVal) : Obj :=
  storeInURL q k v

/-- A flush of the debounced committer of the given scope, reading that
scope's location and the single module-level queue. -/
def scopeFlush (sc : Scope) (q : Obj) : List QsLocation × Obj :=
  commitFlush sc.locSearch q

/-! ### Spec-side definitions

`read_spec` and `write_spec` are written from the spec's own wording
(§4.2, steps of `read` and `write`), to be compared with the definitions
embedded from the source. -/

/-- The `read` operation as §4.2 of the spec words it: decode, extract the
raw string for the key (absent means undefined), hydrate, validate
(membership test for a fixed set, predicate call for a function, truthiness
when absent), and return the candidate when valid, else the default. -/
def read_spec (d : QsStateDefinition) (encodedLocation : String) : JVal :=
  let mapping := qsParse encodedLocation
  let raw : Option String := lookupStr mapping d.key
  let candidate := d.hydrator (match raw with
    | some s => .vstr s
    | none => .vundef)
  let valid : Bool :=
    match d.validator with
    | some (.arr opts) => opts.any (fun o => jsEq o candidate)
    | some (.func p) => p candidate
    | none => truthy candidate
  if valid then candidate else d.default

/-- The `write` operation as §4.2 of the spec words it: validate like
`read` (substituting the default when invalid), dehydrate, and enqueue
`null` when the dehydrated value equals the dehydrated default, else the
dehydrated value; the first component is the immediately updated local
value. -/
def write_spec (d : QsStateDefinition) (newValue : JVal) : JVal × JVal :=
  let validated := if applyValidator d newValue then newValue else d.default
  let dehydrated := d.dehydrator validated
  let entry := if jsEq dehydrated (d.dehydrator d.default) then JVal.vnull else dehydrated
  (validated, entry)

/-! ### Concrete instances used in scenarios and witnesses -/

/-- The definition of the spec's concrete scenarios: key `val`, default
`null`, identity hydrator / dehydrator, no validator. -/
def dVal : QsStateDefinition :=
  ⟨"val", .vnull, fun v => v, fun v => v, none⟩

/-- The definition of the default-dropping scenario: key `val`, default
`'ferret'`. -/
def dFerret : QsStateDefinition :=
  ⟨"val", .vstr "ferret", fun v => v, fun v => v, none⟩

/-- A composite (object) default value, reference tag 1. -/
def objDefault : JVal := .vobj 1 [("a", .vstr "x")]

/-- A structurally identical copy of `objDefault` under a different
reference tag: deep-equal, not strictly equal. -/
def objCopy : JVal := .vobj 2 [("a", .vstr "x")]

/-- A definition with a composite default and the (default) identity
dehydrator. -/
def dObj : QsStateDefinition :=
  ⟨"val", objDefault, fun v => v, fun v => v, none⟩

/-! ## General lemmas about the object operations -/

theorem hasKey_iff_mem (o : Obj) (k : String) :
    hasKey o k = true ↔ k ∈ o.map Prod.fst := by
  induction o with
  | nil => simp [hasKey]
  | cons e o ih =>
    simp only [hasKey, Bool.or_eq_true, beq_iff_eq, List.map_cons, List.mem_cons, ih]
    constructor
    · rintro (h | h)
      · exact Or.inl h.symm
      · exact Or.inr h
    · rintro (h | h)
      · exact Or.inl h.symm
      · exact Or.inr h

theorem hasKey_false_key_ne (o : Obj) (k : String) (h : hasKey o k = false) :
    ∀ e ∈ o, (e.1 == k) = false := by
  induction o with
  | nil => simp
  | cons e o ih =>
    simp only [hasKey, Bool.or_eq_false_iff] at h
    intro e' he'
    rcases List.mem_cons.mp he' with rfl | hmem
    · exact h.1
    · exact ih h.2 e' hmem

theorem lookupObj_eq_none (o : Obj) (k : String) (h : hasKey o k = false) :
    lookupObj o k = none := by
  induction o with
  | nil => rfl
  | cons e o ih =>
    simp only [hasKey, Bool.or_eq_false_iff] at h
    simp [lookupObj, h.1, ih h.2]

theorem keys_replaceKey (o : Obj) (k : String) (v : JVal) :
    (replaceKey o k v).map Prod.fst = o.map Prod.fst := by
  induction o with
  | nil => rfl
  | cons e o ih =>
    by_cases he : e.1 = k
    · simp [replaceKey, he, ih]
    · simp [replaceKey, beq_eq_false_iff_ne.mpr he, ih]

theorem hasKey_keys (o₁ o₂ : Obj) (k : String)
    (h : o₁.map Prod.fst = o₂.map Prod.fst) : hasKey o₁ k = hasKey o₂ k := by
  by_cases h1 : hasKey o₁ k = true
  · have := (hasKey_iff_mem o₁ k).mp h1
    rw [h] at this
    rw [h1, ((hasKey_iff_mem o₂ k).mpr this)]
  · have h1' := Bool.eq_false_iff.mpr h1
    rw [h1']
    by_cases h2 : hasKey o₂ k = true
    · exact absurd ((hasKey_iff_mem o₁ k).mpr (h ▸ (hasKey_iff_mem o₂ k).mp h2)) h1
    · exact (Bool.eq_false_iff.mpr h2).symm

theorem keys_objInsert (o : Obj) (k : String) (v : JVal) :
    (objInsert o k v).map Prod.fst =
      if hasKey o k then o.map Prod.fst else o.map Prod.fst ++ [k] := by
  by_cases h : hasKey o k = true
  · simp only [objInsert]
    rw [if_pos h, if_pos h, keys_replaceKey]
  · have h' := Bool.eq_false_iff.mpr h
    simp only [objInsert]
    rw [if_neg (by simp [h']), if_neg (by simp [h'])]
    simp

theorem hasKey_append_single (o : Obj) (k k' : String) (v : JVal) :
    hasKey (o ++ [(k, v)]) k' = (hasKey o k' || (k == k')) := by
  induction o with
  | nil => simp [hasKey]
  | cons e o ih => simp [hasKey, ih, Bool.or_assoc]

theorem hasKey_objInsert_same (o : Obj) (k : String) (v : JVal) :
    hasKey (objInsert o k v) k = true := by
  rw [hasKey_iff_mem, keys_objInsert]
  by_cases h : hasKey o k = true
  · rw [if_pos h]
    exact (hasKey_iff_mem o k).mp h
  · rw [if_neg (by simp [Bool.eq_false_iff.mpr h])]
    simp

theorem hasKey_objInsert_other (o : Obj) (k k' : String) (v : JVal) (h : k' ≠ k) :
    hasKey (objInsert o k v) k' = hasKey o k' := by
  by_cases ho : hasKey o k = true
  · exact hasKey_keys _ _ _ (by rw [keys_objInsert, if_pos ho])
  · simp only [objInsert]
    rw [if_neg (by simp [Bool.eq_false_iff.mpr ho]), hasKey_append_single,
      beq_eq_false_iff_ne.mpr (fun hc => h hc.symm)]
    simp

theorem lookupObj_replaceKey_self (o : Obj) (k : String) (v : JVal) (h : hasKey o k = true) :
    lookupObj (replaceKey o k v) k = some v := by
  induction o with
  | nil => simp [hasKey] at h
  | cons e o ih =>
    by_cases he : e.1 = k
    · simp [replaceKey, he, lookupObj]
    · have he' := beq_eq_false_iff_ne.mpr he
      simp only [hasKey, he', Bool.false_or] at h
      simp [replaceKey, he', lookupObj, ih h]

theorem lookupObj_append_single (o : Obj) (k : String) (v : JVal) (h : hasKey o k = false) :
    lookupObj (o ++ [(k, v)]) k = some v := by
  induction o with
  | nil => simp [lookupObj]
  | cons e o ih =>
    simp only [hasKey, Bool.or_eq_false_iff] at h
    simp [lookupObj, h.1, ih h.2]

theorem lookupObj_objInsert_self (o : Obj) (k : String) (v : JVal) :
    lookupObj (objInsert o k v) k = some v := by
  by_cases h : hasKey o k = true
  · simp only [objInsert]
    rw [if_pos h]
    exact lookupObj_replaceKey_self o k v h
  · have h' := Bool.eq_false_iff.mpr h
    simp only [objInsert]
    rw [if_neg (by simp [h'])]
    exact lookupObj_append_single o k v h'

theorem lookupObj_replaceKey_other (o : Obj) (k k' : String) (v : JVal) (h : k' ≠ k) :
    lookupObj (replaceKey o k v) k' = lookupObj o k' := by
  induction o with
  | nil => rfl
  | cons e o ih =>
    by_cases he : e.1 = k
    · have h1 : (k == k') = false := beq_eq_false_iff_ne.mpr (fun hc => h hc.symm)
      simp [replaceKey, he, lookupObj, h1, ih]
    · have he' := beq_eq_false_iff_ne.mpr he
      simp [replaceKey, he', lookupObj, ih]

theorem lookupObj_append_single_other (o : Obj) (k k' : String) (v : JVal) (h : k' ≠ k) :
    lookupObj (o ++ [(k, v)]) k' = lookupObj o k' := by
  induction o with
  | nil => simp [lookupObj, beq_eq_false_iff_ne.mpr (fun hc => h hc.symm)]
  | cons e o ih =>
    by_cases he : e.1 = k'
    · simp [lookupObj, he]
    · simp [lookupObj, beq_eq_false_iff_ne.mpr he, ih]

theorem lookupObj_objInsert_other (o : Obj) (k k' : String) (v : JVal) (h : k' ≠ k) :
    lookupObj (objInsert o k v) k' = lookupObj o k' := by
  by_cases ho : hasKey o k = true
  · simp only [objInsert]
    rw [if_pos ho]
    exact lookupObj_replaceKey_other o k k' v h
  · simp only [objInsert]
    rw [if_neg (by simp [Bool.eq_false_iff.mpr ho])]
    exact lookupObj_append_single_other o k k' v h

theorem replaceKey_replaceKey (o : Obj) (k : String) (v₁ v₂ : JVal) :
    replaceKey (replaceKey o k v₁) k v₂ = replaceKey o k v₂ := by
  induction o with
  | nil => rfl
  | cons e o ih =>
    by_cases he : e.1 = k
    · simp [replaceKey, he, ih]
    · simp [replaceKey, beq_eq_false_iff_ne.mpr he, ih]

theorem hasKey_replaceKey (o : Obj) (k k' : String) (v : JVal) :
    hasKey (replaceKey o k v) k' = hasKey o k' :=
  hasKey_keys _ _ _ (keys_replaceKey o k v)

theorem replaceKey_append (o₁ o₂ : Obj) (k : String) (v : JVal) :
    replaceKey (o₁ ++ o₂) k v = replaceKey o₁ k v ++ replaceKey o₂ k v := by
  induction o₁ with
  | nil => rfl
  | cons e o₁ ih => simp [replaceKey, ih]

theorem replaceKey_of_hasKey_false (o : Obj) (k : String) (v : JVal)
    (h : hasKey o k = false) : replaceKey o k v = o := by
  induction o with
  | nil => rfl
  | cons e o ih =>
    simp only [hasKey, Bool.or_eq_false_iff] at h
    simp [replaceKey, h.1, ih h.2]

theorem objInsert_objInsert_same (o : Obj) (k : String) (v₁ v₂ : JVal) :
    objInsert (objInsert o k v₁) k v₂ = objInsert o k v₂ := by
  by_cases h : hasKey o k = true
  · have h1 : hasKey (replaceKey o k v₁) k = true := by
      rw [hasKey_replaceKey]
      exact h
    simp only [objInsert]
    rw [if_pos h, if_pos h1, if_pos h, replaceKey_replaceKey]
  · have h' := Bool.eq_false_iff.mpr h
    have hin : objInsert o k v₁ = o ++ [(k, v₁)] := by
      simp only [objInsert]
      rw [if_neg (by simp [h'])]
    have h2 : hasKey (o ++ [(k, v₁)]) k = true := by
      rw [hasKey_append_single]
      simp
    rw [hin]
    simp only [objInsert]
    rw [if_pos h2, if_neg (by simp [h']), replaceKey_append,
      replaceKey_of_hasKey_false o k v₂ h']
    simp [replaceKey]

theorem nodup_keys_objInsert (o : Obj) (k : String) (v : JVal)
    (h : (o.map Prod.fst).Nodup) : ((objInsert o k v).map Prod.fst).Nodup := by
  rw [keys_objInsert]
  by_cases ho : hasKey o k = true
  · rw [if_pos ho]
    exact h
  · rw [if_neg (by simp [Bool.eq_false_iff.mpr ho])]
    rw [List.nodup_append]
    refine ⟨h, List.nodup_singleton k, ?_⟩
    intro a ha hb
    rw [List.mem_singleton] at hb
    subst hb
    exact ho ((hasKey_iff_mem o a).mpr ha)

theorem objSpread_nil (p : Obj) : objSpread p [] = p := rfl

theorem objSpread_cons (p : Obj) (e : String × JVal) (q : Obj) :
    objSpread p (e :: q) = objSpread (objInsert p e.1 e.2) q := rfl

theorem lookupObj_objSpread (p q : Obj) (k : String)
    (hq : (q.map Prod.fst).Nodup) :
    lookupObj (objSpread p q) k = (lookupObj q k).or (lookupObj p k) := by
  induction q generalizing p with
  | nil => simp [objSpread_nil, lookupObj]
  | cons e q ih =>
    obtain ⟨k₀, v₀⟩ := e
    simp only [List.map_cons, List.nodup_cons] at hq
    rw [objSpread_cons, ih _ hq.2]
    by_cases hk : k = k₀
    · subst hk
      have hq0 : hasKey q k = false := by
        rw [Bool.eq_false_iff]
        intro hc
        exact hq.1 ((hasKey_iff_mem q k).mp hc)
      rw [lookupObj_eq_none q k hq0, lookupObj_objInsert_self]
      simp [lookupObj]
    · rw [lookupObj_objInsert_other p k₀ k v₀ hk]
      simp [lookupObj, beq_eq_false_iff_ne.mpr (fun hkk => hk hkk.symm)]

theorem keys_objSpread (p q : Obj) (hq : (q.map Prod.fst).Nodup) :
    (objSpread p q).map Prod.fst =
      p.map Prod.fst ++ (q.filter (fun e => !hasKey p e.1)).map Prod.fst := by
  induction q generalizing p with
  | nil => simp [objSpread_nil]
  | cons e q ih =>
    obtain ⟨k₀, v₀⟩ := e
    simp only [List.map_cons, List.nodup_cons] at hq
    rw [objSpread_cons, ih _ hq.2]
    have hfilter : q.filter (fun e => !hasKey (objInsert p k₀ v₀) e.1) =
        q.filter (fun e => !hasKey p e.1) := by
      apply List.filter_congr
      intro e he
      have hne : e.1 ≠ k₀ := by
        intro hc
        exact hq.1 (hc ▸ (List.mem_map.mpr ⟨e, he, rfl⟩))
      rw [hasKey_objInsert_other p k₀ e.1 v₀ hne]
    rw [hfilter, keys_objInsert]
    by_cases hp : hasKey p k₀ = true
    · rw [if_pos hp]
      simp [List.filter_cons, hp]
    · have hp' := Bool.eq_false_iff.mpr hp
      rw [if_neg (by simp [hp'])]
      simp [List.filter_cons, hp']

theorem objPairs_nil : objPairs [] = [] := rfl

theorem objPairs_cons (e : String × JVal) (o : Obj) :
    objPairs (e :: o) = qsPairs e.1 e.2 ++ objPairs o := by
  simp [objPairs]

theorem objPairs_filter_null (o : Obj) :
    objPairs (o.filter (fun e => !e.2.isNull)) = objPairs o := by
  induction o with
  | nil => rfl
  | cons e o ih =>
    obtain ⟨k, v⟩ := e
    by_cases hv : v.isNull = true
    · have hvn : v = .vnull := by
        cases v <;> simp [JVal.isNull] at hv ⊢
      subst hvn
      have hstep : ((k, JVal.vnull) :: o).filter (fun e => !e.2.isNull) =
          o.filter (fun e => !e.2.isNull) := by
        rw [List.filter_cons]
        simp [JVal.isNull]
      rw [hstep, ih, objPairs_cons]
      simp [qsPairs]
    · have hv' := Bool.eq_false_iff.mpr hv
      simp [List.filter_cons, hv', objPairs_cons, ih]

/-! ## The claims -/

/-- C1: once the binding has mounted, a reconciliation pass triggered by an
external location change performs no update at all of the binding-local
state while the shared commit queue is non-empty; with an empty queue it
replaces the local value by the one recomputed via `getValueFromURL` from
the new location exactly when that value differs from the current local
value under `isEqualObj`, and keeps the current value otherwise. -/
theorem reconcile_gated_by_pending_queue (d : QsStateDefinition)
    (locSearch : String) (q : Obj) (s : BindingState) (hm : s.mounted = true) :
    (q ≠ [] → reconcileEffect d locSearch q s = s) ∧
    (q = [] →
      (reconcileEffect d locSearch q s).value =
        (if isEqualObj (getValueFromURL d locSearch) s.value then s.value
         else getValueFromURL d locSearch) ∧
      (reconcileEffect d locSearch q s).mounted = true) := by
  constructor
  · intro hq
    have hlen : (q.length == 0) = false := by
      rw [beq_eq_false_iff_ne]
      simp [hq]
    simp [reconcileEffect, hm, hlen]
  · intro hq
    subst hq
    by_cases hiso : isEqualObj (getValueFromURL d locSearch) s.value = true
    · simp [reconcileEffect, hm, hiso]
    · simp [reconcileEffect, hm, Bool.eq_false_iff.mpr hiso]

/-- Witness for C1: key `val`, location changed to `?val=dog`, local state
`'cat'`; with a pending entry for an unrelated key the pass is a no-op,
with an empty queue the state is replaced by `'dog'`. -/
theorem reconcile_gated_by_pending_queue_witness :
    (⟨true, JVal.vstr "cat"⟩ : BindingState).mounted = true ∧
    reconcileEffect dVal "?val=dog" [("x", JVal.vstr "1")] ⟨true, .vstr "cat"⟩ =
      ⟨true, .vstr "cat"⟩ ∧
    (reconcileEffect dVal "?val=dog" [] ⟨true, .vstr "cat"⟩).value = .vstr "dog" := by
  refine ⟨rfl, ?_, ?_⟩
  · exact (reconcile_gated_by_pending_queue dVal "?val=dog" [("x", JVal.vstr "1")]
      ⟨true, .vstr "cat"⟩ rfl).1 (by simp)
  · have h := ((reconcile_gated_by_pending_queue dVal "?val=dog" []
      ⟨true, .vstr "cat"⟩ rfl).2 rfl).1
    rw [h]
    rfl

/-- C2: a run of the debounced committer decodes the current external
location, overlays the entire pending queue on top of the decoded mapping
(a pending entry overrides the decoded entry of its key), re-encodes the
merged mapping — null-valued entries contributing nothing to the output, so
a pending null removes its key — invokes the external commit operation
exactly once with the result, and clears the queue. -/
theorem commit_overlays_invokes_once_and_clears (locSearch : String) (q : Obj)
    (hq : (q.map Prod.fst).Nodup) :
    (commitFlush locSearch q).1.length = 1 ∧
    (commitFlush locSearch q).1 =
      [⟨qsStringify (commitQsObject locSearch q)⟩] ∧
    (commitFlush locSearch q).2 = [] ∧
    (∀ k, lookupObj (commitQsObject locSearch q) k =
      (lookupObj q k).or
        (lookupObj ((qsParse locSearch).map (fun e => (e.1, JVal.vstr e.2))) k)) ∧
    qsStringify (commitQsObject locSearch q) =
      qsStringify ((commitQsObject locSearch q).filter (fun e => !e.2.isNull)) := by
  refine ⟨rfl, rfl, rfl, ?_, ?_⟩
  · intro k
    exact lookupObj_objSpread _ q k hq
  · unfold qsStringify
    rw [objPairs_filter_null]

/-- Witness for C2: location `?val=cat&type=3`, queue with an override for
`val` and a null for `type`. -/
theorem commit_overlays_invokes_once_and_clears_witness :
    (commitFlush "?val=cat&type=3" [("val", JVal.vstr "dog"), ("type", JVal.vnull)]).1.length = 1 ∧
    (commitFlush "?val=cat&type=3" [("val", JVal.vstr "dog"), ("type", JVal.vnull)]).1 =
      [⟨qsStringify (commitQsObject "?val=cat&type=3"
        [("val", JVal.vstr "dog"), ("type", JVal.vnull)])⟩] ∧
    (commitFlush "?val=cat&type=3" [("val", JVal.vstr "dog"), ("type", JVal.vnull)]).2 = [] ∧
    (∀ k, lookupObj (commitQsObject "?val=cat&type=3"
        [("val", JVal.vstr "dog"), ("type", JVal.vnull)]) k =
      (lookupObj [("val", JVal.vstr "dog"), ("type", JVal.vnull)] k).or
        (lookupObj ((qsParse "?val=cat&type=3").map (fun e => (e.1, JVal.vstr e.2))) k)) ∧
    qsStringify (commitQsObject "?val=cat&type=3"
        [("val", JVal.vstr "dog"), ("type", JVal.vnull)]) =
      qsStringify ((commitQsObject "?val=cat&type=3"
        [("val", JVal.vstr "dog"), ("type", JVal.vnull)]).filter (fun e => !e.2.isNull)) :=
  commit_overlays_invokes_once_and_clears "?val=cat&type=3"
    [("val", JVal.vstr "dog"), ("type", JVal.vnull)] (by simp)

/-- C3 counterexample: with the identity dehydrator and the composite
default `objDefault`, setting the deep-equal copy `objCopy` (equal under
`isEqualObj`, a different reference) enqueues the object itself instead of
null, and the next committed encoded location, from an otherwise empty
location, is `val[a]=x` — the key `val` is encoded, not absent. -/
theorem setValue_default_copy_still_encoded :
    isEqualObj objCopy objDefault = true ∧
    (setValueRun dObj objCopy ⟨true, objDefault⟩ []).2 = [("val", objCopy)] ∧
    (commitFlush "" (setValueRun dObj objCopy ⟨true, objDefault⟩ []).2).1 =
      [⟨"val[a]=x"⟩] ∧
    ("val[a]=x" : String) ≠ "" :=
  ⟨rfl, rfl, rfl, by decide⟩

/-- C3 amended: whenever the dehydrated validated value is strictly equal
to the dehydrated default — which deep equality to the default guarantees
only when the dehydrator maps deep-equal inputs to the same result, as with
string defaults under the identity dehydrator — `setValue` enqueues null
under the key, the merged commit mapping carries null for that key
regardless of whether the location had it, and the encoding drops
null-valued entries, leaving the key absent from the committed location.
With the identity dehydrator and a composite default, a deep-equal copy of
the default is still encoded. -/
theorem setValue_dehydrated_default_dropped (d : QsStateDefinition) (v : JVal)
    (s : BindingState) (q : Obj) (locSearch : String)
    (hq : (q.map Prod.fst).Nodup)
    (h : jsEq (d.dehydrator (if applyValidator d v then v else d.default))
          (d.dehydrator d.default) = true) :
    (setValueRun d v s q).2 = storeInURL q d.key .vnull ∧
    lookupObj (commitQsObject locSearch (storeInURL q d.key .vnull)) d.key =
      some .vnull ∧
    qsStringify (commitQsObject locSearch (storeInURL q d.key .vnull)) =
      qsStringify ((commitQsObject locSearch (storeInURL q d.key .vnull)).filter
        (fun e => !e.2.isNull)) := by
  have hentry : (setValueCompute d v).2 = .vnull := by
    show (if jsEq (d.dehydrator (if applyValidator d v then v else d.default))
            (d.dehydrator d.default)
          then JVal.vnull
          else d.dehydrator (if applyValidator d v then v else d.default)) = .vnull
    rw [if_pos h]
  refine ⟨?_, ?_, ?_⟩
  · show storeInURL q d.key (setValueCompute d v).2 = storeInURL q d.key .vnull
    rw [hentry]
  · simp only [storeInURL, commitQsObject]
    rw [lookupObj_objSpread _ _ _ (nodup_keys_objInsert q d.key .vnull hq),
      lookupObj_objInsert_self]
    rfl
  · unfold qsStringify
    rw [objPairs_filter_null]

/-- Witness for the amended C3: definition with default `'ferret'`, setting
`'ferret'` again with location `?val=cat` and a pending unrelated entry. -/
theorem setValue_dehydrated_default_dropped_witness :
    (setValueRun dFerret (.vstr "ferret") ⟨true, .vstr "cat"⟩
      [("x", JVal.vstr "1")]).2 = storeInURL [("x", JVal.vstr "1")] "val" .vnull ∧
    lookupObj (commitQsObject "?val=cat"
      (storeInURL [("x", JVal.vstr "1")] "val" .vnull)) "val" = some .vnull ∧
    qsStringify (commitQsObject "?val=cat"
      (storeInURL [("x", JVal.vstr "1")] "val" .vnull)) =
      qsStringify ((commitQsObject "?val=cat"
        (storeInURL [("x", JVal.vstr "1")] "val" .vnull)).filter
          (fun e => !e.2.isNull)) :=
  setValue_dehydrated_default_dropped dFerret (.vstr "ferret")
    ⟨true, .vstr "cat"⟩ [("x", JVal.vstr "1")] "?val=cat" (by simp) rfl

/-- C4: `getValueFromURL` coincides with the spec-side `read_spec` (decode,
extract the raw string for the key with undefined when absent, hydrate,
validate, fall back to the default), and the validator dispatch is exactly:
membership test for a fixed set, the predicate's result for a function, and
truthiness of the candidate when absent. -/
theorem read_matches_spec :
    (∀ (d : QsStateDefinition) (s : String), getValueFromURL d s = read_spec d s) ∧
    (∀ (key : String) (dflt : JVal) (hyd deh : JVal → JVal) (opts : List JVal) (v : JVal),
      applyValidator ⟨key, dflt, hyd, deh, some (.arr opts)⟩ v =
        opts.any (fun o => jsEq o v)) ∧
    (∀ (key : String) (dflt : JVal) (hyd deh : JVal → JVal) (p : JVal → Bool) (v : JVal),
      applyValidator ⟨key, dflt, hyd, deh, some (.func p)⟩ v = p v) ∧
    (∀ (key : String) (dflt : JVal) (hyd deh : JVal → JVal) (v : JVal),
      applyValidator ⟨key, dflt, hyd, deh, none⟩ v = truthy v) :=
  ⟨fun _ _ => rfl, fun _ _ _ _ _ _ => rfl, fun _ _ _ _ _ _ => rfl, fun _ _ _ _ _ => rfl⟩

/-- C5: `setValue` validates with the same `applyValidator` as `read`,
substitutes the default when invalid, sets the binding-local state to the
validated value in the same step — the resulting local state does not
depend on the queue, hence not on the commit delay — and enqueues under the
definition's key the dehydrated value, or null when it is strictly equal to
the dehydrated default; `setValueCompute` coincides with the spec-side
`write_spec`. -/
theorem setValue_matches_spec :
    (∀ (d : QsStateDefinition) (v : JVal), setValueCompute d v = write_spec d v) ∧
    (∀ (d : QsStateDefinition) (v : JVal) (s : BindingState) (q : Obj),
      (setValueRun d v s q).1.value = (if applyValidator d v then v else d.default)) ∧
    (∀ (d : QsStateDefinition) (v : JVal) (s : BindingState) (q₁ q₂ : Obj),
      (setValueRun d v s q₁).1 = (setValueRun d v s q₂).1) ∧
    (∀ (d : QsStateDefinition) (v : JVal) (s : BindingState) (q : Obj),
      (setValueRun d v s q).2 = storeInURL q d.key (setValueCompute d v).2) ∧
    (∀ (d : QsStateDefinition) (v : JVal),
      (setValueCompute d v).2 =
        (if jsEq (d.dehydrator (if applyValidator d v then v else d.default))
              (d.dehydrator d.default)
         then JVal.vnull
         else d.dehydrator (if applyValidator d v then v else d.default))) :=
  ⟨fun _ _ => rfl, fun _ _ _ _ => rfl, fun _ _ _ _ _ => rfl,
    fun _ _ _ _ => rfl, fun _ _ => rfl⟩

/-- C6: enqueues merge into the shared queue: a second write to the same
key within one window supersedes the first — the queue, the whole flush and
the value of the key in the single resulting commit all equal those of the
second write alone — while entries of every other key are unchanged. -/
theorem enqueue_last_write_wins (q : Obj) (k k' : String) (v₁ v₂ : JVal)
    (locSearch : String) (hk : k' ≠ k) (hq : (q.map Prod.fst).Nodup) :
    storeInURL (storeInURL q k v₁) k v₂ = storeInURL q k v₂ ∧
    lookupObj (storeInURL q k v₁) k' = lookupObj q k' ∧
    commitFlush locSearch (storeInURL (storeInURL q k v₁) k v₂) =
      commitFlush locSearch (storeInURL q k v₂) ∧
    lookupObj (commitQsObject locSearch (storeInURL (storeInURL q k v₁) k v₂)) k =
      some v₂ ∧
    (commitFlush locSearch (storeInURL (storeInURL q k v₁) k v₂)).1.length = 1 := by
  have h1 : storeInURL (storeInURL q k v₁) k v₂ = storeInURL q k v₂ :=
    objInsert_objInsert_same q k v₁ v₂
  refine ⟨h1, lookupObj_objInsert_other q k k' v₁ hk, by rw [h1], ?_, rfl⟩
  rw [h1]
  simp only [storeInURL, commitQsObject]
  rw [lookupObj_objSpread _ _ _ (nodup_keys_objInsert q k v₂ hq),
    lookupObj_objInsert_self]
  rfl

/-- Witness for C6: two writes to `val` and an untouched entry for `x`. -/
theorem enqueue_last_write_wins_witness :
    storeInURL (storeInURL [("x", JVal.vstr "1")] "val" (.vstr "cat")) "val" (.vstr "dog") =
      storeInURL [("x", JVal.vstr "1")] "val" (.vstr "dog") ∧
    lookupObj (storeInURL [("x", JVal.vstr "1")] "val" (.vstr "cat")) "x" =
      lookupObj [("x", JVal.vstr "1")] "x" ∧
    commitFlush "?val=a"
        (storeInURL (storeInURL [("x", JVal.vstr "1")] "val" (.vstr "cat")) "val" (.vstr "dog")) =
      commitFlush "?val=a" (storeInURL [("x", JVal.vstr "1")] "val" (.vstr "dog")) ∧
    lookupObj (commitQsObject "?val=a"
        (storeInURL (storeInURL [("x", JVal.vstr "1")] "val" (.vstr "cat")) "val" (.vstr "dog")))
      "val" = some (.vstr "dog") ∧
    (commitFlush "?val=a"
        (storeInURL (storeInURL [("x", JVal.vstr "1")] "val" (.vstr "cat")) "val" (.vstr "dog"))).1.length = 1 :=
  enqueue_last_write_wins [("x", JVal.vstr "1")] "val" "x" (.vstr "cat") (.vstr "dog")
    "?val=a" (by decide) (by simp)

/-- C7: in the merged commit mapping, keys decoded from the current
location keep their relative positions even when their value is overridden
by a queued write, and queue-only keys are appended after them; the spec's
concrete scenario — location `?val=cat&type=3&color=teal` and
`setValue('ferret')` on key `val` — commits
`val=ferret&type=3&color=teal`. -/
theorem commit_preserves_key_order (p q : Obj) (hq : (q.map Prod.fst).Nodup) :
    (objSpread p q).map Prod.fst =
      p.map Prod.fst ++ (q.filter (fun e => !hasKey p e.1)).map Prod.fst ∧
    (commitFlush "?val=cat&type=3&color=teal"
        (setValueRun dVal (.vstr "ferret") ⟨true, .vstr "cat"⟩ []).2).1 =
      [⟨"val=ferret&type=3&color=teal"⟩] :=
  ⟨keys_objSpread p q hq, rfl⟩

/-- Witness for C7: one decoded key `type`, one queued key `val`. -/
theorem commit_preserves_key_order_witness :
    (objSpread [("type", JVal.vstr "3")] [("val", JVal.vstr "f")]).map Prod.fst =
      [("type", JVal.vstr "3")].map Prod.fst ++
        ([("val", JVal.vstr "f")].filter
          (fun e => !hasKey [("type", JVal.vstr "3")] e.1)).map Prod.fst ∧
    (commitFlush "?val=cat&type=3&color=teal"
        (setValueRun dVal (.vstr "ferret") ⟨true, .vstr "cat"⟩ []).2).1 =
      [⟨"val=ferret&type=3&color=teal"⟩] :=
  commit_preserves_key_order [("type", JVal.vstr "3")] [("val", JVal.vstr "f")] (by simp)

/-- C8: initialization seeds the binding value directly from the current
location with the mounted flag down — `initBinding` does not even receive
the queue, so the pending-queue gate is not consulted — and the very first
run of the reconciliation pass only raises the mounted flag, updating no
state, whatever the queue and the observed location are; replacement is
possible only on later passes. -/
theorem init_seeds_and_first_pass_skips (d : QsStateDefinition)
    (locSearch locSearch' : String) (q : Obj) (s : BindingState)
    (hs : s.mounted = false) :
    (initBinding d locSearch).mounted = false ∧
    (initBinding d locSearch).value = getValueFromURL d locSearch ∧
    reconcileEffect d locSearch' q s = ⟨true, s.value⟩ := by
  refine ⟨rfl, rfl, ?_⟩
  simp [reconcileEffect, hs]

/-- Witness for C8: a fresh binding for `val` over `?val=cat`, first pass
with a changed location and a non-empty queue. -/
theorem init_seeds_and_first_pass_skips_witness :
    (initBinding dVal "?val=cat").mounted = false ∧
    (initBinding dVal "?val=cat").value = getValueFromURL dVal "?val=cat" ∧
    reconcileEffect dVal "?val=dog" [("x", JVal.vstr "1")] ⟨false, .vstr "cat"⟩ =
      ⟨true, .vstr "cat"⟩ :=
  init_seeds_and_first_pass_skips dVal "?val=cat" "?val=dog"
    [("x", JVal.vstr "1")] ⟨false, .vstr "cat"⟩ rfl

/-- C9: the commit queue is one module-level mapping shared by all scopes,
not per-scope: an enqueue performed through any scope acts identically on
the single queue, the entry is included in the next flush of any other
scope, and that flush clears the pending entries for every scope at once —
a following flush by any third scope overlays nothing on its location. -/
theorem queue_shared_across_scopes (scA scB scC : Scope) (q : Obj)
    (k : String) (v : JVal) (hq : (q.map Prod.fst).Nodup) :
    scopeEnqueue scA q k v = scopeEnqueue scB q k v ∧
    lookupObj (commitQsObject scB.locSearch (scopeEnqueue scA q k v)) k = some v ∧
    (scopeFlush scB (scopeEnqueue scA q k v)).2 = [] ∧
    scopeFlush scC (scopeFlush scB (scopeEnqueue scA q k v)).2 =
      ([⟨qsStringify ((qsParse scC.locSearch).map (fun e => (e.1, JVal.vstr e.2)))⟩], []) := by
  refine ⟨rfl, ?_, rfl, ?_⟩
  · simp only [scopeEnqueue, storeInURL, commitQsObject]
    rw [lookupObj_objSpread _ _ _ (nodup_keys_objInsert q k v hq),
      lookupObj_objInsert_self]
    rfl
  · simp [scopeFlush, commitFlush, commitQsObject, objSpread_nil]

/-- Witness for C9: scopes over three different locations, an enqueue of
`val` through the first. -/
theorem queue_shared_across_scopes_witness :
    scopeEnqueue ⟨"?a=1"⟩ [("x", JVal.vstr "1")] "val" (.vstr "dog") =
      scopeEnqueue ⟨"?b=2"⟩ [("x", JVal.vstr "1")] "val" (.vstr "dog") ∧
    lookupObj (commitQsObject (Scope.locSearch ⟨"?b=2"⟩)
      (scopeEnqueue ⟨"?a=1"⟩ [("x", JVal.vstr "1")] "val" (.vstr "dog"))) "val" =
      some (.vstr "dog") ∧
    (scopeFlush ⟨"?b=2"⟩
      (scopeEnqueue ⟨"?a=1"⟩ [("x", JVal.vstr "1")] "val" (.vstr "dog"))).2 = [] ∧
    scopeFlush ⟨"?c=3"⟩ (scopeFlush ⟨"?b=2"⟩
        (scopeEnqueue ⟨"?a=1"⟩ [("x", JVal.vstr "1")] "val" (.vstr "dog"))).2 =
      ([⟨qsStringify ((qsParse (Scope.locSearch ⟨"?c=3"⟩)).map
          (fun e => (e.1, JVal.vstr e.2)))⟩], []) :=
  queue_shared_across_scopes ⟨"?a=1"⟩ ⟨"?b=2"⟩ ⟨"?c=3"⟩
    [("x", JVal.vstr "1")] "val" (.vstr "dog") (by simp)

/-- C10: `isEqualObj a b` is true exactly when `a === b` or the
`JSON.stringify` images coincide; consequently two structurally equal
objects (identical field lists, arbitrary reference tags) compare equal,
the same fields serialized in different key orders compare unequal (shown
at a concrete pair), and any two distinct values serializing to undefined —
for example two different functions — compare equal. -/
theorem isEqualObj_spec :
    (∀ a b, isEqualObj a b = (jsEq a b || jsonStringify a == jsonStringify b)) ∧
    (∀ (i j : Nat) (fs : List (String × JVal)),
      isEqualObj (.vobj i fs) (.vobj j fs) = true) ∧
    isEqualObj (.vobj 1 [("a", .vnum 1), ("b", .vnum 2)])
      (.vobj 2 [("b", .vnum 2), ("a", .vnum 1)]) = false ∧
    (∀ (i j : Nat), isEqualObj (.vfunc i) (.vfunc j) = true) := by
  refine ⟨?_, ?_, rfl, ?_⟩
  · intro a b
    unfold isEqualObj
    by_cases h : jsEq a b = true
    · simp [h]
    · simp [Bool.eq_false_iff.mpr h]
  · intro i j fs
    unfold isEqualObj
    by_cases h : jsEq (.vobj i fs) (.vobj j fs) = true
    · simp [h]
    · rw [if_neg (by simp [Bool.eq_false_iff.mpr h])]
      simp [jsonStringify]
  · intro i j
    unfold isEqualObj
    by_cases h : jsEq (.vfunc i) (.vfunc j) = true
    · simp [h]
    · rw [if_neg (by simp [Bool.eq_false_iff.mpr h])]
      simp [jsonStringify]

end QsState
